import Mathlib

/-!
Verification of the export pipeline in `cmd/load.go` (wrench).

The Go source is shallowly embedded: the filesystem is an explicit state
(`GoFS`), the Spanner client is a record of call results (`Client`), and
`encoding/json.Unmarshal` is abstracted as a parameter (`JsonU`) since it is
standard-library code; the one standard-library fact theorems rely on
(unmarshalling empty input fails and leaves the target at its zero value) is
always an explicit hypothesis or a documented concrete instance.

String and path operations (`strings.HasSuffix`, `strings.ReplaceAll`,
`path.Clean`, `filepath.Join`, `bufio.ScanLines`) are implemented from their
documented Go semantics on `List Char`, with structural recursion only, so
every definition evaluates inside the kernel.
-/

namespace Wrench

/-- Split a character list at every occurrence of `c` (the separators are
dropped; `n` separators yield `n+1` pieces, as Go's `strings.Split`). -/
def splitOnChar (c : Char) : List Char → List (List Char)
  | [] => [[]]
  | x :: rest =>
    if x = c then [] :: splitOnChar c rest
    else
      match splitOnChar c rest with
      | [] => [[x]]
      | h :: t => (x :: h) :: t

/-- Go `strings.HasPrefix`. -/
def strStartsWith (s pre : String) : Bool :=
  pre.data.isPrefixOf s.data

/-- Go `strings.HasSuffix`. -/
def strEndsWith (s suf : String) : Bool :=
  suf.data.reverse.isPrefixOf s.data.reverse

/-- Worker for `strReplaceAll`; the fuel argument is initialised to the
length of the subject list, which bounds the number of steps, so the `0`
fallback case is never reached on those calls. -/
def replaceAllAux (old new : List Char) : Nat → List Char → List Char
  | _, [] => []
  | 0, s => s
  | Nat.succ fuel, x :: rest =>
    if old.isPrefixOf (x :: rest) then
      new ++ replaceAllAux old new fuel (List.drop (old.length - 1) rest)
    else
      x :: replaceAllAux old new fuel rest

/-- Go `strings.ReplaceAll` for a non-empty pattern (every use in the source
replaces a fixed non-empty filename): leftmost-first, non-overlapping. -/
def strReplaceAll (s old new : String) : String :=
  if old = "" then s
  else String.mk (replaceAllAux old.data new.data s.data.length s.data)

/-- Go `strings.Join`. -/
def strJoin (sep : String) : List String → String
  | [] => ""
  | [x] => x
  | x :: y :: rest => x ++ sep ++ strJoin sep (y :: rest)

/-- Drop one trailing carriage return, as `bufio`'s `dropCR`. -/
def dropCR (s : String) : String :=
  if strEndsWith s "\r" then String.mk s.data.dropLast else s

/-- The sequence of tokens produced by a `bufio.Scanner` with the default
`ScanLines` split function: split at every newline, drop one trailing `\r`
per line, and produce no final empty token for input ending in a newline. -/
def scanLines (s : String) : List String :=
  let parts := (splitOnChar '\n' s.data).map (fun l => String.mk l)
  let parts := if parts.getLast? = some "" then parts.dropLast else parts
  parts.map dropCR

/-- Go `path.Clean` (slash-separated paths), by its documented semantics:
collapse multiple separators, eliminate `.` elements, eliminate `..`
together with the preceding element, and eliminate `..` at the start of a
rooted path; the empty path cleans to `"."`. -/
def goPathClean (p : String) : String :=
  if p = "" then "."
  else
    let rooted := strStartsWith p "/"
    let comps := ((splitOnChar '/' p.data).map (fun l => String.mk l)).filter
      (fun c => c ≠ "" && c ≠ ".")
    let stack := comps.foldl (fun acc c =>
      if c = ".." then
        match acc with
        | [] => if rooted then [] else [".."]
        | top :: rest => if top = ".." then c :: top :: rest else rest
      else c :: acc) ([] : List String)
    let s := strJoin "/" stack.reverse
    if rooted then String.mk ('/' :: s.data)
    else if s = "" then "." else s

/-- Go `filepath.Join` for two elements on a slash-separated filesystem:
join the non-empty elements with a separator and clean the result. -/
def goJoin (a b : String) : String :=
  if a = "" && b = "" then ""
  else if a = "" then goPathClean b
  else if b = "" then goPathClean a
  else goPathClean (a ++ "/" ++ b)

/-- Go `path.Dir`: everything before the final separator, cleaned; `"."`
when there is no separator. -/
def goDir (p : String) : String :=
  let r := p.data.reverse.dropWhile (fun c => c ≠ '/')
  if r = [] then "." else goPathClean (String.mk r.reverse)

/-- `p` lies in the tree rooted at `t`: it is `t` itself or below it.
This is the set of names removed by `os.RemoveAll(t)`. -/
def underPath (t p : String) : Bool :=
  if p = t then true else strStartsWith p (t ++ "/")

/-- Boolean membership in a list of strings. -/
def strMem : List String → String → Bool
  | [], _ => false
  | x :: rest, p => if x = p then true else strMem rest p

/-! ## Data model (from `cmd/load.go` and the collaborators it consumes) -/

/-- `const` block of `cmd/load.go`. -/
def dirTable : String := "table"

/-- `const` block of `cmd/load.go`. -/
def dirStaticData : String := "static_data"

/-- `const` block of `cmd/load.go`. -/
def dirIndex : String := "index"

/-- `staticDataConfig` of `cmd/load.go`; the Go map `CustomOrderBy` is
represented as an association list. The Go zero value is `⟨[], []⟩`. -/
structure staticDataConfig where
  StaticDataTables : List String
  CustomOrderBy : List (String × String)
deriving DecidableEq, Repr

/-- `spanner.SchemaDDL` as consumed by `writeDDL`: object category (the
subdirectory), derived filename, and literal DDL text. -/
structure SchemaDDL where
  ObjectType : String
  Filename : String
  Statement : String
deriving DecidableEq, Repr

/-- `spanner.StaticData` as consumed by `writeData`: the exported table's
identity and its serialized row statements. -/
structure StaticData where
  TableName : String
  Statements : List String
deriving DecidableEq, Repr

/-- Modelled from the spec: `StaticData.ToFileName` lives in `pkg/spanner`,
outside the visible source; the spec only requires the filename to be
derived from the static-data set's identity, uniquely and stably, so it is
modelled as a fixed function of the table identity. -/
def StaticData.ToFileName (d : StaticData) : String :=
  d.TableName ++ ".sql"

/-- Modelled from the spec: the constant `defaultStaticDataTablesFile` is
defined outside the visible source.  The spec's concrete scenario (§8) and
the source's fallback `ReplaceAll` to the same name fix its value. -/
def defaultStaticDataTablesFile : String := "static_data_tables.txt"

/-- Filesystem state: files (path, content, mode), directories (path, mode),
and injected failure sets for `os.MkdirAll`, non-`IsNotExist` `os.Stat`
failures, `ioutil.WriteFile` and `os.RemoveAll`. -/
structure GoFS where
  files : List (String × String × Nat)
  dirs : List (String × Nat)
  failMkdir : List String
  failStat : List String
  failWrite : List String
  failRemove : List String
deriving DecidableEq, Repr

/-- First entry for path `p` among the files. -/
def filesLookup : List (String × String × Nat) → String → Option (String × Nat)
  | [], _ => none
  | e :: rest, p => if e.1 = p then some e.2 else filesLookup rest p

/-- First entry for path `p` among the directories. -/
def dirsLookup : List (String × Nat) → String → Option Nat
  | [], _ => none
  | e :: rest, p => if e.1 = p then some e.2 else dirsLookup rest p

/-- Content of the file at `p`, when it exists. -/
def fileAt (fs : GoFS) (p : String) : Option String :=
  (filesLookup fs.files p).map Prod.fst

/-- Mode of the file at `p`, when it exists. -/
def permAt (fs : GoFS) (p : String) : Option Nat :=
  (filesLookup fs.files p).map Prod.snd

/-- Mode of the directory at `p`, when it exists. -/
def dirPermAt (fs : GoFS) (p : String) : Option Nat :=
  dirsLookup fs.dirs p

/-- `os.Stat` succeeds: the name exists, as a directory or as a file. -/
def statExists (fs : GoFS) (p : String) : Bool :=
  (dirsLookup fs.dirs p).isSome || (filesLookup fs.files p).isSome

/-- Remove every file whose path satisfies `u`. -/
def removeFiles (u : String → Bool) : List (String × String × Nat) → List (String × String × Nat)
  | [] => []
  | e :: rest => if u e.1 then removeFiles u rest else e :: removeFiles u rest

/-- Remove every directory whose path satisfies `u`. -/
def removeDirs (u : String → Bool) : List (String × Nat) → List (String × Nat)
  | [] => []
  | e :: rest => if u e.1 then removeDirs u rest else e :: removeDirs u rest

/-- `ioutil.WriteFile p content perm`: fails on an injected write failure or
when the containing directory does not exist; creates the file with `perm`
or truncates an existing file, which keeps its previous mode (Go only
applies `perm` at creation). -/
def FS.writeFile (fs : GoFS) (p content : String) (perm : Nat) : Except String GoFS :=
  if strMem fs.failWrite p then Except.error ("write failure: " ++ p)
  else if (dirsLookup fs.dirs (goDir p)).isSome then
    match filesLookup fs.files p with
    | some pc =>
      Except.ok { fs with files := (p, content, pc.2) :: removeFiles (fun q => decide (q = p)) fs.files }
    | none => Except.ok { fs with files := (p, content, perm) :: fs.files }
  else Except.error ("no such directory: " ++ goDir p)

/-- `mkdir` of `cmd/load.go`: `os.Stat(parent)`; on `IsNotExist` it calls
`os.MkdirAll(parent, 0700)` and DISCARDS its error; any other stat failure
is returned; an existing name is accepted as is. -/
def mkdirGo (fs : GoFS) (parent : String) : GoFS × Option String :=
  if strMem fs.failStat parent then (fs, some ("stat failure: " ++ parent))
  else if statExists fs parent then (fs, none)
  else if strMem fs.failMkdir parent then (fs, none)
  else ({ fs with dirs := (parent, 0o700) :: fs.dirs }, none)

/-- `os.RemoveAll(t)`: removes the whole tree rooted at `t`; an injected
failure leaves the state unchanged and reports an error. -/
def removeAllFS (fs : GoFS) (t : String) : GoFS × Option String :=
  if strMem fs.failRemove t then (fs, some ("remove failure: " ++ t))
  else ({ fs with
      files := removeFiles (underPath t) fs.files,
      dirs := removeDirs (underPath t) fs.dirs }, none)

/-- `clearSchemaDir` of `cmd/load.go`: `RemoveAll` on the `table`, `index`
and `static_data` subtrees, in that order, stopping at the first failure. -/
def clearSchemaDir (fs : GoFS) (dir : String) : GoFS × Option String :=
  match removeAllFS fs (goJoin dir dirTable) with
  | (fs1, some e) => (fs1, some e)
  | (fs1, none) =>
    match removeAllFS fs1 (goJoin dir dirIndex) with
    | (fs2, some e) => (fs2, some e)
    | (fs2, none) =>
      match removeAllFS fs2 (goJoin dir dirStaticData) with
      | (fs3, some e) => (fs3, some e)
      | (fs3, none) => (fs3, none)

/-- `p` lies in one of the three artifact subtrees cleared by
`clearSchemaDir`. -/
def inRegion (dir p : String) : Bool :=
  underPath (goJoin dir dirTable) p || underPath (goJoin dir dirIndex) p ||
    underPath (goJoin dir dirStaticData) p

/-! ## Config resolution (`readStaticDataTablesFile` and helpers) -/

/-- The behaviour of `encoding/json.Unmarshal` into a `staticDataConfig`,
abstracted: the returned config is the (possibly partially populated)
decode target and the second component is the returned error.  Facts about
the real unmarshaller (it fails on empty input and, on a syntax error,
leaves the target at its zero value) enter theorems as hypotheses. -/
abbrev JsonU := String → staticDataConfig × Option String

/-- `readJsonFile` of `cmd/load.go`.  Its `openFile` maps `IsNotExist` to a
nil file and nil error; the source then shadows every earlier error: the
`ReadAll` failure on the nil file is discarded, the read bytes are empty,
and the result is entirely decided by `json.Unmarshal` on the content read
(empty for an absent file). -/
def readJsonFile (ju : JsonU) (fs : GoFS) (filePath : String) : staticDataConfig × Option String :=
  match fileAt fs filePath with
  | none => ju ""
  | some content => ju content

/-- `readTxtFile` of `cmd/load.go`: an absent file yields a nil file handle,
the scanner produces no tokens, and the result is `([], nil)`; otherwise
every scanned line (empty lines included) is appended. -/
def readTxtFile (fs : GoFS) (filePath : String) : List String × Option String :=
  match fileAt fs filePath with
  | none => ([], none)
  | some content => (scanLines content, none)

/-- `readStaticDataTablesFile` of `cmd/load.go`: clean the path; on the
default filename try the structured sibling first and fall back to the text
sibling on any json error (keeping the `CustomOrderBy` the failed decode
left in `sdc`); on an explicit `.json` or `.txt` suffix read only that
format; otherwise return the zero config and nil error. -/
def readStaticDataTablesFile (ju : JsonU) (fs : GoFS) (filePath0 : String) :
    staticDataConfig × Option String :=
  let filePath := goPathClean filePath0
  if strEndsWith filePath defaultStaticDataTablesFile then
    let jsonPath := strReplaceAll filePath defaultStaticDataTablesFile "wrench.json"
    match readJsonFile ju fs jsonPath with
    | (sdc, none) => (sdc, none)
    | (sdc, some _) =>
      let txtPath := strReplaceAll filePath defaultStaticDataTablesFile "static_data_tables.txt"
      let (tables, err) := readTxtFile fs txtPath
      ({ sdc with StaticDataTables := tables }, err)
  else if strEndsWith filePath ".json" then
    readJsonFile ju fs filePath
  else if strEndsWith filePath ".txt" then
    let (tables, err) := readTxtFile fs filePath
    ({ StaticDataTables := tables, CustomOrderBy := [] }, err)
  else
    ({ StaticDataTables := [], CustomOrderBy := [] }, none)

/-- The non-empty lines of a file, in file order — this is the SPEC's
wording for the plain-text format, used to compare against the source's
actual behaviour. -/
def specNonEmptyLines (s : String) : List String :=
  (scanLines s).filter (fun l => l ≠ "")

/-- A concrete `JsonU` instance for closed test inputs: contents listed in
the table decode to the given config and error; everything else (including
the empty read of an absent file, as real `json.Unmarshal` does) fails with
a syntax error leaving the target at its zero value. -/
def juLit : List (String × staticDataConfig × Option String) → JsonU
  | [], _ => (⟨[], []⟩, some "unexpected end of JSON input")
  | e :: rest, s => if e.1 = s then e.2 else juLit rest s

/-! ## Artifact writers (`writeDDL`, `writeData`) -/

/-- One write step: target directory, file path, content and creation mode.
`writeDDL` and `writeData` are both of this shape. -/
structure WriteOp where
  parent : String
  file : String
  content : String
  perm : Nat
deriving DecidableEq, Repr

/-- The write performed by `writeDDL ddl schemaDir`:
`parent = Join(schemaDir, ddl.ObjectType)`, file `ddl.Filename`, the DDL
text verbatim, mode `0664`. -/
def ddlOp (dir : String) (d : SchemaDDL) : WriteOp :=
  let parent := goJoin dir d.ObjectType
  { parent := parent, file := goJoin parent d.Filename, content := d.Statement, perm := 0o664 }

/-- The write performed by `writeData data schemaDir`:
`parent = Join(schemaDir, "static_data")`, derived filename, the statements
joined with single newlines, mode `0644`. -/
def dataOp (dir : String) (d : StaticData) : WriteOp :=
  let parent := goJoin dir dirStaticData
  { parent := parent, file := goJoin parent d.ToFileName,
    content := strJoin "\n" d.Statements, perm := 0o644 }

/-- Shared body of `writeDDL` and `writeData`: ensure the parent directory
(via `mkdir`, which swallows `MkdirAll` failures) then write the file. -/
def runOp (fs : GoFS) (op : WriteOp) : GoFS × Option String :=
  match mkdirGo fs op.parent with
  | (fs1, some e) => (fs1, some e)
  | (fs1, none) =>
    match FS.writeFile fs1 op.file op.content op.perm with
    | Except.error e => (fs1, some e)
    | Except.ok fs2 => (fs2, none)

/-- `writeDDL` of `cmd/load.go`. -/
def writeDDL (fs : GoFS) (ddl : SchemaDDL) (schemaDir : String) : GoFS × Option String :=
  runOp fs (ddlOp schemaDir ddl)

/-- `writeData` of `cmd/load.go`. -/
def writeData (fs : GoFS) (d : StaticData) (schemaDir : String) : GoFS × Option String :=
  runOp fs (dataOp schemaDir d)

/-! ## Orchestrators (`load`, `loadDiscrete`) -/

/-- The Spanner client as the orchestrators observe it: the results of its
three fetching calls.  `LoadStaticDatas` is a function of the configured
table list and custom ordering, fixed for the client's lifetime (the claims
about repeated runs quantify over one such client). -/
structure Client where
  loadDDLres : Except String String
  loadDDLsRes : Except String (List SchemaDDL)
  loadStaticDatasRes : List String → List (String × String) → Except String (List StaticData)

/-- The pipeline step an error originated from (the source wraps the
failing call's error in `&Error{...}`; the tag records which call it was). -/
inductive Step where
  | connect
  | fetchDDLs
  | clearDir
  | writeObj
  | readConfig
  | fetchStatic
  | writeStatic
deriving DecidableEq, Repr

/-- Observable actions of a discrete-mode run, recorded when the action is
attempted, in order. -/
inductive Event where
  | fetchDDLs
  | clearDir
  | writeObj (path : String)
  | readConfig (cfg : staticDataConfig)
  | fetchStatic
  | writeStatic (path : String)
deriving DecidableEq, Repr

/-- Position of an event's step in the fixed discrete-mode pipeline. -/
def stage : Event → Nat
  | Event.fetchDDLs => 0
  | Event.clearDir => 1
  | Event.writeObj _ => 2
  | Event.readConfig _ => 3
  | Event.fetchStatic => 4
  | Event.writeStatic _ => 5

/-- Pipeline position of the step an error is tagged with. -/
def stepStage : Step → Nat
  | Step.connect => 0
  | Step.fetchDDLs => 0
  | Step.clearDir => 1
  | Step.writeObj => 2
  | Step.readConfig => 3
  | Step.fetchStatic => 4
  | Step.writeStatic => 5

/-- Is the event an artifact write? -/
def isArtifactWrite : Event → Bool
  | Event.writeObj _ => true
  | Event.writeStatic _ => true
  | _ => false

/-- Is the event the config-resolution step? -/
def isReadConfigEv : Event → Bool
  | Event.readConfig _ => true
  | _ => false

/-- A `for` loop calling `runOp` (that is, `writeDDL` / `writeData`) on each
element and returning on the first error, recording one tagged event per
attempted write. -/
def runOpsTraced (tag : String → Event) : GoFS → List WriteOp → GoFS × Option String × List Event
  | fs, [] => (fs, none, [])
  | fs, op :: rest =>
    match runOp fs op with
    | (fs1, some e) => (fs1, some e, [tag op.file])
    | (fs1, none) =>
      match runOpsTraced tag fs1 rest with
      | (fs2, err, tr) => (fs2, err, tag op.file :: tr)

/-- Content of the last write in `ops` targeting path `p`, if any. -/
def lastContent : List WriteOp → String → Option String
  | [], _ => none
  | op :: rest, p =>
    match lastContent rest p with
    | some c => some c
    | none => if op.file = p then some op.content else none

/-- Left-biased choice on optional contents. -/
def oOr : Option String → Option String → Option String
  | some c, _ => some c
  | none, b => b

/-- `load` of `cmd/load.go` (consolidated mode): connect, fetch the full DDL
blob, write it to the single schema file path with mode `0664`.  `sfp` is
`schemaFilePath(c)`, a flag-derived constant path outside the visible
source. -/
def load (conn : Except String Client) (fs : GoFS) (sfp : String) : GoFS × Option String :=
  match conn with
  | Except.error e => (fs, some e)
  | Except.ok client =>
    match client.loadDDLres with
    | Except.error e => (fs, some e)
    | Except.ok ddl =>
      match FS.writeFile fs sfp ddl 0o664 with
      | Except.error e => (fs, some e)
      | Except.ok fs1 => (fs1, none)

/-- `loadDiscrete` of `cmd/load.go`: connect; fetch the schema objects;
clear the three artifact subtrees; write every object; resolve the static
data config (`sdt` is `staticDataTablesFilePath(c)`, the flag-derived path
hint); fetch the static data; write every static-data set.  The first
failure is returned, tagged with its step, and ends the run. -/
def loadDiscrete (conn : Except String Client) (ju : JsonU) (fs : GoFS) (dir sdt : String) :
    GoFS × Option (Step × String) × List Event :=
  match conn with
  | Except.error e => (fs, some (Step.connect, e), [])
  | Except.ok client =>
    match client.loadDDLsRes with
    | Except.error e => (fs, some (Step.fetchDDLs, e), [Event.fetchDDLs])
    | Except.ok ddls =>
      match clearSchemaDir fs dir with
      | (fs1, some e) => (fs1, some (Step.clearDir, e), [Event.fetchDDLs, Event.clearDir])
      | (fs1, none) =>
        match runOpsTraced Event.writeObj fs1 (ddls.map (ddlOp dir)) with
        | (fs2, some e, trA) =>
          (fs2, some (Step.writeObj, e), Event.fetchDDLs :: Event.clearDir :: trA)
        | (fs2, none, trA) =>
          match readStaticDataTablesFile ju fs2 sdt with
          | (cfg, some e) =>
            (fs2, some (Step.readConfig, e),
              Event.fetchDDLs :: Event.clearDir :: (trA ++ [Event.readConfig cfg]))
          | (cfg, none) =>
            match client.loadStaticDatasRes cfg.StaticDataTables cfg.CustomOrderBy with
            | Except.error e =>
              (fs2, some (Step.fetchStatic, e),
                Event.fetchDDLs :: Event.clearDir ::
                  (trA ++ [Event.readConfig cfg, Event.fetchStatic]))
            | Except.ok datas =>
              match runOpsTraced Event.writeStatic fs2 (datas.map (dataOp dir)) with
              | (fs3, errB, trB) =>
                (fs3, errB.map (fun e => (Step.writeStatic, e)),
                  Event.fetchDDLs :: Event.clearDir ::
                    (trA ++ Event.readConfig cfg :: Event.fetchStatic :: trB))

/-- No write event of the trace targets path `p`. -/
def notWrittenAt (tr : List Event) (p : String) : Bool :=
  tr.all (fun e =>
    match e with
    | Event.writeObj q => decide (q ≠ p)
    | Event.writeStatic q => decide (q ≠ p)
    | _ => true)

/-! ## Concrete fixtures used by witnesses and counterexamples -/

/-- A filesystem holding one explicit plain-text config file that contains an
empty line. -/
def fsTxt : GoFS :=
  { files := [("tables.txt", "Users\n\nOrders", 0o644)]
    dirs := [], failMkdir := [], failStat := [], failWrite := [], failRemove := [] }

/-- A filesystem where the structured sibling exists but is malformed and the
plain-text sibling exists. -/
def fsFallback : GoFS :=
  { files := [("r/wrench.json", "badtype", 0o644),
              ("r/static_data_tables.txt", "Users", 0o644)]
    dirs := [], failMkdir := [], failStat := [], failWrite := [], failRemove := [] }

/-- An unmarshaller behaving as `encoding/json.Unmarshal` does on valid JSON
of the wrong type: it partially populates the target (here `CustomOrderBy`)
and still returns an error. -/
def juPartial : JsonU :=
  juLit [("badtype", ⟨[], [("Users", "Id")]⟩, some "json: cannot unmarshal")]

/-- Structured sibling syntactically malformed, text sibling with two table
names. -/
def fsC3 : GoFS :=
  { files := [("r/wrench.json", "not json", 0o644),
              ("r/static_data_tables.txt", "Users\nOrders", 0o644)]
    dirs := [], failMkdir := [], failStat := [], failWrite := [], failRemove := [] }

/-- A schema provider returning one table DDL and one static-data set, the
same on every call. -/
def exClient : Client :=
  { loadDDLres := Except.ok "CREATE TABLE Users (...)"
    loadDDLsRes := Except.ok [⟨"table", "Users.sql", "CREATE TABLE Users (...)"⟩]
    loadStaticDatasRes := fun _ _ => Except.ok [⟨"Users", ["INSERT 1", "INSERT 2"]⟩] }

/-- Unmarshaller that fails on everything (in particular on the empty read of
an absent file, as the real one does). -/
def exJu : JsonU := juLit []

/-- A target directory containing a stale artifact from an earlier export. -/
def exFS : GoFS :=
  { files := [("r/table/Old.sql", "OLD", 0o664)]
    dirs := [("r", 0o700), ("r/table", 0o700)]
    failMkdir := [], failStat := [], failWrite := [], failRemove := [] }

/-- First discrete run on `exFS`. -/
def exRun1 : GoFS × Option (Step × String) × List Event :=
  loadDiscrete (Except.ok exClient) exJu exFS "r" "r/static_data_tables.txt"

/-- Second discrete run, on the first run's result. -/
def exRun2 : GoFS × Option (Step × String) × List Event :=
  loadDiscrete (Except.ok exClient) exJu exRun1.1 "r" "r/static_data_tables.txt"

/-- A filesystem where creating the artifact directories fails. -/
def fsMkFail : GoFS :=
  { files := [], dirs := []
    failMkdir := ["r/table", "r/static_data"]
    failStat := [], failWrite := [], failRemove := [] }

/-- An empty target with just the root directory present. -/
def fsRoot : GoFS :=
  { files := [], dirs := [("r", 0o700)]
    failMkdir := [], failStat := [], failWrite := [], failRemove := [] }

/-- A consolidated-mode target that already holds an old schema file and an
unrelated file. -/
def fsCons : GoFS :=
  { files := [("r/schema.sql", "OLD SCHEMA", 0o664), ("r/other.txt", "keep", 0o644)]
    dirs := [("r", 0o700)]
    failMkdir := [], failStat := [], failWrite := [], failRemove := [] }

/-! ## Basic lemmas about the filesystem model -/

theorem filesLookup_removeFiles (u : String → Bool) (q : String)
    (l : List (String × String × Nat)) :
    filesLookup (removeFiles u l) q = if u q then none else filesLookup l q := by
  induction l with
  | nil => simp [removeFiles, filesLookup]
  | cons e rest ih =>
    by_cases hu : u e.1 = true
    · by_cases heq : e.1 = q
      · subst heq
        simp [removeFiles, hu, filesLookup, ih]
      · simp [removeFiles, hu, filesLookup, heq, ih]
    · by_cases heq : e.1 = q
      · subst heq
        simp [removeFiles, hu, filesLookup]
      · simp [removeFiles, hu, filesLookup, heq, ih]

theorem fileAt_of_files_eq (fs1 fs : GoFS) (h : fs1.files = fs.files) (q : String) :
    fileAt fs1 q = fileAt fs q := by
  simp [fileAt, h]

theorem writeFile_ok_fileAt (fs : GoFS) (p c : String) (pm : Nat) (fs' : GoFS)
    (h : FS.writeFile fs p c pm = Except.ok fs') (q : String) :
    fileAt fs' q = if p = q then some c else fileAt fs q := by
  unfold FS.writeFile at h
  by_cases hf : strMem fs.failWrite p = true
  · simp [hf] at h
  · by_cases hd : (dirsLookup fs.dirs (goDir p)).isSome = true
    · rw [if_neg (by simp [hf]), if_pos hd] at h
      cases hl : filesLookup fs.files p with
      | some pc =>
        rw [hl] at h
        cases h
        by_cases heq : p = q
        · subst heq
          simp [fileAt, filesLookup]
        · have hqp : ¬q = p := fun hq => heq hq.symm
          simp [fileAt, filesLookup, heq, filesLookup_removeFiles, hqp]
      | none =>
        rw [hl] at h
        cases h
        by_cases heq : p = q
        · subst heq
          simp [fileAt, filesLookup]
        · simp [fileAt, filesLookup, heq]
    · rw [if_neg (by simp [hf]), if_neg hd] at h
      cases h

theorem writeFile_ok_dirs (fs : GoFS) (p c : String) (pm : Nat) (fs' : GoFS)
    (h : FS.writeFile fs p c pm = Except.ok fs') : fs'.dirs = fs.dirs := by
  unfold FS.writeFile at h
  by_cases hf : strMem fs.failWrite p = true
  · simp [hf] at h
  · by_cases hd : (dirsLookup fs.dirs (goDir p)).isSome = true
    · rw [if_neg (by simp [hf]), if_pos hd] at h
      cases hl : filesLookup fs.files p with
      | some pc => rw [hl] at h; cases h; rfl
      | none => rw [hl] at h; cases h; rfl
    · rw [if_neg (by simp [hf]), if_neg hd] at h
      cases h

theorem writeFile_ok_permAt_new (fs : GoFS) (p c : String) (pm : Nat) (fs' : GoFS)
    (h : FS.writeFile fs p c pm = Except.ok fs') (hnew : fileAt fs p = none) :
    permAt fs' p = some pm := by
  unfold FS.writeFile at h
  by_cases hf : strMem fs.failWrite p = true
  · simp [hf] at h
  · by_cases hd : (dirsLookup fs.dirs (goDir p)).isSome = true
    · rw [if_neg (by simp [hf]), if_pos hd] at h
      cases hl : filesLookup fs.files p with
      | some pc => simp [fileAt, hl] at hnew
      | none =>
        rw [hl] at h
        cases h
        simp [permAt, filesLookup]
    · rw [if_neg (by simp [hf]), if_neg hd] at h
      cases h

theorem mkdirGo_files (fs : GoFS) (parent : String) :
    (mkdirGo fs parent).1.files = fs.files := by
  unfold mkdirGo
  by_cases h1 : strMem fs.failStat parent = true
  · simp [h1]
  · by_cases h2 : statExists fs parent = true
    · simp [h1, h2]
    · by_cases h3 : strMem fs.failMkdir parent = true
      · simp [h1, h2, h3]
      · simp [h1, h2, h3]

theorem runOp_ok_fileAt (fs : GoFS) (op : WriteOp) (fs' : GoFS)
    (h : runOp fs op = (fs', none)) (q : String) :
    fileAt fs' q = if op.file = q then some op.content else fileAt fs q := by
  unfold runOp at h
  split at h
  · simp at h
  · rename_i fs1 hm
    split at h
    · simp at h
    · rename_i fs2 hw
      simp only [Prod.mk.injEq] at h
      obtain ⟨h1, _⟩ := h
      subst h1
      have h1 : fileAt fs1 q = fileAt fs q := by
        have := mkdirGo_files fs op.parent
        rw [hm] at this
        exact fileAt_of_files_eq fs1 fs this q
      rw [writeFile_ok_fileAt fs1 op.file op.content op.perm _ hw q, h1]

theorem runOps_ok_fileAt (tag : String → Event) (ops : List WriteOp) :
    ∀ fs fs' tr, runOpsTraced tag fs ops = (fs', none, tr) →
      ∀ q, fileAt fs' q = oOr (lastContent ops q) (fileAt fs q) := by
  induction ops with
  | nil =>
    intro fs fs' tr h q
    unfold runOpsTraced at h
    cases h
    simp [lastContent, oOr]
  | cons op rest ih =>
    intro fs fs' tr h q
    unfold runOpsTraced at h
    split at h
    · simp at h
    · rename_i fs1 ho
      split at h
      rename_i fs2 err2 tr2 hr
      simp only [Prod.mk.injEq] at h
      obtain ⟨h1, h2, h3⟩ := h
      subst h1
      subst h2
      have hstep := runOp_ok_fileAt fs op fs1 ho q
      have hrec := ih fs1 _ tr2 hr q
      rw [hrec, hstep]
      cases hl : lastContent rest q with
      | some c => simp [lastContent, hl, oOr]
      | none =>
        by_cases heq : op.file = q
        · simp [lastContent, hl, heq, oOr]
        · simp [lastContent, hl, heq, oOr]

theorem runOps_events_tag (tag : String → Event) (ops : List WriteOp) :
    ∀ fs fs' err tr, runOpsTraced tag fs ops = (fs', err, tr) →
      ∀ e ∈ tr, ∃ p, e = tag p := by
  induction ops with
  | nil =>
    intro fs fs' err tr h e he
    unfold runOpsTraced at h
    cases h
    simp at he
  | cons op rest ih =>
    intro fs fs' err tr h e he
    unfold runOpsTraced at h
    split at h
    · rename_i fs1 er ho
      simp only [Prod.mk.injEq] at h
      obtain ⟨h1, h2, h3⟩ := h
      subst h3
      simp at he
      exact ⟨op.file, he⟩
    · rename_i fs1 ho
      split at h
      rename_i fs2 err2 tr2 hr
      simp only [Prod.mk.injEq] at h
      obtain ⟨h1, h2, h3⟩ := h
      subst h3
      rcases List.mem_cons.mp he with h1 | h1
      · exact ⟨op.file, h1⟩
      · exact ih fs1 _ _ _ hr e h1

theorem runOps_ok_trace (tag : String → Event) (ops : List WriteOp) :
    ∀ fs fs' tr, runOpsTraced tag fs ops = (fs', none, tr) →
      tr = ops.map (fun o => tag o.file) := by
  induction ops with
  | nil =>
    intro fs fs' tr h
    unfold runOpsTraced at h
    cases h
    rfl
  | cons op rest ih =>
    intro fs fs' tr h
    unfold runOpsTraced at h
    split at h
    · simp at h
    · rename_i fs1 ho
      split at h
      rename_i fs2 err2 tr2 hr
      simp only [Prod.mk.injEq] at h
      obtain ⟨h1, h2, h3⟩ := h
      subst h2
      subst h3
      simp [ih fs1 _ tr2 hr]

theorem lastContent_eq_none (ops : List WriteOp) (p : String)
    (h : ∀ o ∈ ops, o.file ≠ p) : lastContent ops p = none := by
  induction ops with
  | nil => rfl
  | cons op rest ih =>
    have h1 : op.file ≠ p := h op (List.mem_cons_self op rest)
    have h2 : lastContent rest p = none := ih (fun o ho => h o (List.mem_cons_of_mem op ho))
    simp [lastContent, h2, h1]

theorem removeAll_ok_fileAt (fs : GoFS) (t : String) (fs' : GoFS)
    (h : removeAllFS fs t = (fs', none)) (q : String) :
    fileAt fs' q = if underPath t q then none else fileAt fs q := by
  unfold removeAllFS at h
  by_cases hf : strMem fs.failRemove t = true
  · simp [hf] at h
  · rw [if_neg hf] at h
    cases h
    by_cases hu : underPath t q = true
    · simp [fileAt, filesLookup_removeFiles, hu]
    · simp only [Bool.not_eq_true] at hu
      simp [fileAt, filesLookup_removeFiles, hu]

theorem clear_ok_fileAt (fs : GoFS) (dir : String) (fs' : GoFS)
    (h : clearSchemaDir fs dir = (fs', none)) (q : String) :
    fileAt fs' q = if inRegion dir q then none else fileAt fs q := by
  unfold clearSchemaDir at h
  split at h
  · simp at h
  · rename_i fs1 h1
    split at h
    · simp at h
    · rename_i fs2 h2
      split at h
      · simp at h
      · rename_i fs3 h3
        simp only [Prod.mk.injEq] at h
        obtain ⟨ha, _⟩ := h
        subst ha
        rw [removeAll_ok_fileAt fs2 _ _ h3 q,
          removeAll_ok_fileAt fs1 _ fs2 h2 q,
          removeAll_ok_fileAt fs _ fs1 h1 q]
        cases hu1 : underPath (goJoin dir dirTable) q <;>
          cases hu2 : underPath (goJoin dir dirIndex) q <;>
            cases hu3 : underPath (goJoin dir dirStaticData) q <;>
              simp [inRegion, hu1, hu2, hu3]

/-- Success-shape of a discrete run: every pipeline step succeeded, and the
trace has the canonical form. -/
theorem loadDiscrete_ok_elim (conn : Except String Client) (ju : JsonU) (fs : GoFS)
    (dir sdt : String) (fs' : GoFS) (tr : List Event)
    (h : loadDiscrete conn ju fs dir sdt = (fs', none, tr)) :
    ∃ cl ddls fsA fsB trA cfg datas trB,
      conn = Except.ok cl ∧
      cl.loadDDLsRes = Except.ok ddls ∧
      clearSchemaDir fs dir = (fsA, none) ∧
      runOpsTraced Event.writeObj fsA (ddls.map (ddlOp dir)) = (fsB, none, trA) ∧
      readStaticDataTablesFile ju fsB sdt = (cfg, none) ∧
      cl.loadStaticDatasRes cfg.StaticDataTables cfg.CustomOrderBy = Except.ok datas ∧
      runOpsTraced Event.writeStatic fsB (datas.map (dataOp dir)) = (fs', none, trB) ∧
      tr = Event.fetchDDLs :: Event.clearDir ::
        (trA ++ Event.readConfig cfg :: Event.fetchStatic :: trB) := by
  unfold loadDiscrete at h
  split at h
  · simp at h
  · rename_i cl
    split at h
    · simp at h
    · rename_i ddls hd
      split at h
      · simp at h
      · rename_i fsA hc
        split at h
        · simp at h
        · rename_i fsB trA hA
          split at h
          · simp at h
          · rename_i cfg hcfg
            split at h
            · simp at h
            · rename_i datas hsf
              split at h
              rename_i fs3 errB trB hB
              cases errB with
              | some e => simp at h
              | none =>
                simp only [Option.map_none', Prod.mk.injEq] at h
                obtain ⟨h1, _, h3⟩ := h
                subst h1
                subst h3
                exact ⟨cl, ddls, fsA, fsB, trA, cfg, datas, trB, rfl, hd, hc,
                  hA, hcfg, hsf, hB, rfl⟩

/-- The resolved config recorded in a successful run's trace is unique. -/
theorem readConfig_unique (trA trB : List Event) (cfg c : staticDataConfig)
    (hA : ∀ e ∈ trA, ∃ p, e = Event.writeObj p)
    (hB : ∀ e ∈ trB, ∃ p, e = Event.writeStatic p)
    (hmem : Event.readConfig c ∈ Event.fetchDDLs :: Event.clearDir ::
      (trA ++ Event.readConfig cfg :: Event.fetchStatic :: trB)) : c = cfg := by
  rcases List.mem_cons.mp hmem with h | h
  · cases h
  rcases List.mem_cons.mp h with h | h
  · cases h
  rcases List.mem_append.mp h with h | h
  · obtain ⟨p, hp⟩ := hA _ h
    cases hp
  rcases List.mem_cons.mp h with h | h
  · cases h
    rfl
  rcases List.mem_cons.mp h with h | h
  · cases h
  · obtain ⟨p, hp⟩ := hB _ h
    cases hp

/-! ## Claim theorems -/

/-- C1: the claim says an absent file at an explicit `.json` config path
yields an empty `StaticDataConfig` and NO error.  The code disagrees: for a
`.json` path whose file does not exist, `openFile` swallows the not-exist
error, `ReadAll` of the nil handle yields empty bytes (its error is
shadowed), and `json.Unmarshal` of empty input fails, so
`readStaticDataTablesFile` returns that error.  This theorem evaluates the
code at the failing input (path `missing.json`, empty filesystem). -/
theorem C1_absent_explicit_json_is_an_error :
    readStaticDataTablesFile (juLit []) ⟨[], [], [], [], [], []⟩ "missing.json"
      = (⟨[], []⟩, some "unexpected end of JSON input") := rfl

/-- C10: for every config path whose cleaned form ends with none of the
recognized suffixes (the default filename, `.json`, `.txt`),
`readStaticDataTablesFile` returns the zero `staticDataConfig` and no
error, for every filesystem (so no file is read). -/
theorem C10_unrecognized_suffix_empty_config (ju : JsonU) (fs : GoFS) (p : String)
    (h1 : strEndsWith (goPathClean p) defaultStaticDataTablesFile = false)
    (h2 : strEndsWith (goPathClean p) ".json" = false)
    (h3 : strEndsWith (goPathClean p) ".txt" = false) :
    readStaticDataTablesFile ju fs p = (⟨[], []⟩, none) := by
  unfold readStaticDataTablesFile
  simp [h1, h2, h3]

/-- Witness for C10 at the concrete path `config.yaml`, on a filesystem that
does hold a file of that name. -/
theorem C10_unrecognized_suffix_empty_config_witness :
    readStaticDataTablesFile (juLit []) ⟨[("config.yaml", "x", 0o644)], [], [], [], [], []⟩
      "config.yaml" = (⟨[], []⟩, none) :=
  C10_unrecognized_suffix_empty_config (juLit []) _ "config.yaml"
    (by decide) (by decide) (by decide)

/-- C3: when the path ends with the canonical default filename, the
structured sibling exists but its decode fails, and the text sibling
exists, `readStaticDataTablesFile` returns the text file's lines and no
error — the malformed structured file falls through to the text attempt. -/
theorem C3_malformed_structured_falls_through (ju : JsonU) (fs : GoFS) (p : String)
    (d : staticDataConfig) (e sj st : String)
    (hdef : strEndsWith (goPathClean p) defaultStaticDataTablesFile = true)
    (hjson : fileAt fs (strReplaceAll (goPathClean p) defaultStaticDataTablesFile "wrench.json")
      = some sj)
    (hmal : ju sj = (d, some e))
    (htxt : fileAt fs (strReplaceAll (goPathClean p) defaultStaticDataTablesFile
      "static_data_tables.txt") = some st) :
    (readStaticDataTablesFile ju fs p).1.StaticDataTables = scanLines st ∧
      (readStaticDataTablesFile ju fs p).2 = none := by
  unfold readStaticDataTablesFile readJsonFile readTxtFile
  simp [hdef, hjson, hmal, htxt]

/-- Witness for C3: malformed `r/wrench.json` next to a valid
`r/static_data_tables.txt` holding `Users` and `Orders`. -/
theorem C3_malformed_structured_falls_through_witness :
    (readStaticDataTablesFile (juLit []) fsC3 "r/static_data_tables.txt").1.StaticDataTables
        = ["Users", "Orders"] ∧
      (readStaticDataTablesFile (juLit []) fsC3 "r/static_data_tables.txt").2 = none := by
  have h := C3_malformed_structured_falls_through (juLit []) fsC3 "r/static_data_tables.txt"
    ⟨[], []⟩ "unexpected end of JSON input" "not json" "Users\nOrders"
    (by decide) (by decide) (by decide) (by decide)
  exact ⟨by rw [h.1]; rfl, h.2⟩

/-- C2 counterexample: the claim says a plain-text config yields exactly the
NON-EMPTY lines, with an empty `CustomOrderBy`, in both text-reading modes.
Both parts fail on the code at concrete inputs: an explicit `.txt` file
containing `Users`, an empty line, and `Orders`, resolves to the list
`["Users", "", "Orders"]` (the empty line is kept); and in the fallback
after a structured file whose decode partially populated the target before
failing (valid JSON of the wrong type), `CustomOrderBy` is the partial
decode's map, not empty. -/
theorem C2_counterexample_lines :
    ((readStaticDataTablesFile (juLit []) fsTxt "tables.txt").1.StaticDataTables
        ≠ specNonEmptyLines "Users\n\nOrders") ∧
      (readStaticDataTablesFile (juLit []) fsTxt "tables.txt").1.StaticDataTables
        = ["Users", "", "Orders"] ∧
      (readStaticDataTablesFile juPartial fsFallback "r/static_data_tables.txt").1.CustomOrderBy
        ≠ [] := by
  refine ⟨by decide, by decide, by decide⟩

/-- C2 (amended): for a plain-text config file the resolved
`StaticDataTables` equals ALL lines of the file in file order (empty lines
included; a trailing newline contributes no final empty line).  In the
explicit `.txt` branch `CustomOrderBy` is empty; in the fallback branch
after a failed structured read it is whatever the failed decode left
(empty when the structured file was absent or syntactically invalid). -/
theorem C2_text_config_lines (ju : JsonU) (fs : GoFS) (p s : String) :
    (strEndsWith (goPathClean p) defaultStaticDataTablesFile = false →
      strEndsWith (goPathClean p) ".json" = false →
      strEndsWith (goPathClean p) ".txt" = true →
      fileAt fs (goPathClean p) = some s →
      readStaticDataTablesFile ju fs p = (⟨scanLines s, []⟩, none)) ∧
    (∀ d e, strEndsWith (goPathClean p) defaultStaticDataTablesFile = true →
      readJsonFile ju fs (strReplaceAll (goPathClean p) defaultStaticDataTablesFile
        "wrench.json") = (d, some e) →
      fileAt fs (strReplaceAll (goPathClean p) defaultStaticDataTablesFile
        "static_data_tables.txt") = some s →
      readStaticDataTablesFile ju fs p = (⟨scanLines s, d.CustomOrderBy⟩, none)) := by
  constructor
  · intro h1 h2 h3 hf
    unfold readStaticDataTablesFile readTxtFile
    simp [h1, h2, h3, hf]
  · intro d e hdef hjson htxt
    unfold readStaticDataTablesFile readTxtFile
    simp [hdef, hjson, htxt]

/-- Witness for the amended C2, both branches: the explicit `.txt` file of
`fsTxt` and the fallback configuration of `fsFallback`. -/
theorem C2_text_config_lines_witness :
    readStaticDataTablesFile (juLit []) fsTxt "tables.txt"
        = (⟨["Users", "", "Orders"], []⟩, none) ∧
      readStaticDataTablesFile juPartial fsFallback "r/static_data_tables.txt"
        = (⟨["Users"], [("Users", "Id")]⟩, none) := by
  constructor
  · have h := (C2_text_config_lines (juLit []) fsTxt "tables.txt" "Users\n\nOrders").1
      (by decide) (by decide) (by decide) (by decide)
    rw [h]; rfl
  · have h := (C2_text_config_lines juPartial fsFallback "r/static_data_tables.txt" "Users").2
      ⟨[], [("Users", "Id")]⟩ "json: cannot unmarshal" (by decide) (by decide) (by decide)
    rw [h]; rfl

/-- If the write target's directory is the computed parent, the parent does
not exist and creating it fails, `runOp` (the shared body of `writeDDL` and
`writeData`) returns an error and leaves the filesystem unchanged. -/
theorem runOp_mkdir_fail (fs : GoFS) (op : WriteOp)
    (h1 : strMem fs.failStat op.parent = false)
    (h2 : statExists fs op.parent = false)
    (h3 : strMem fs.failMkdir op.parent = true)
    (h4 : goDir op.file = op.parent) :
    ∃ e, runOp fs op = (fs, some e) := by
  have hmk : mkdirGo fs op.parent = (fs, none) := by
    unfold mkdirGo
    simp [h1, h2, h3]
  have hdl : (dirsLookup fs.dirs (goDir op.file)).isSome = false := by
    rw [h4]
    simp only [statExists, Bool.or_eq_false_iff] at h2
    simp [h2.1]
  unfold runOp
  rw [hmk]
  unfold FS.writeFile
  by_cases hw : strMem fs.failWrite op.file = true
  · simp [hw]
  · simp [hw, hdl]

/-- `runOp` success: a file created by the write carries the op's mode. -/
theorem runOp_ok_permAt_new (fs : GoFS) (op : WriteOp) (fs' : GoFS)
    (h : runOp fs op = (fs', none)) (hnew : fileAt fs op.file = none) :
    permAt fs' op.file = some op.perm := by
  unfold runOp at h
  split at h
  · simp at h
  · rename_i fs1 hm
    split at h
    · simp at h
    · rename_i fs2 hw
      simp only [Prod.mk.injEq] at h
      obtain ⟨h1, _⟩ := h
      subst h1
      have hfiles := mkdirGo_files fs op.parent
      rw [hm] at hfiles
      have hnew1 : fileAt fs1 op.file = none := by
        rw [fileAt_of_files_eq fs1 fs hfiles]
        exact hnew
      exact writeFile_ok_permAt_new fs1 op.file op.content op.perm _ hw hnew1

/-- C4: for every call to `writeDDL` or `writeData` in which the parent
directory does not exist and creating it fails (and the write target's
containing directory is that parent), the call returns an error to its
caller and changes nothing — the failure is neither silently ignored nor
retried.  (Inside `mkdir` the `MkdirAll` error itself is discarded, but the
subsequent write necessarily fails, so the caller always sees an error.) -/
theorem C4_mkdir_failure_surfaces (fs : GoFS) (ddl : SchemaDDL) (d : StaticData) (dir : String)
    (hd1 : strMem fs.failStat (ddlOp dir ddl).parent = false)
    (hd2 : statExists fs (ddlOp dir ddl).parent = false)
    (hd3 : strMem fs.failMkdir (ddlOp dir ddl).parent = true)
    (hd4 : goDir (ddlOp dir ddl).file = (ddlOp dir ddl).parent)
    (hw1 : strMem fs.failStat (dataOp dir d).parent = false)
    (hw2 : statExists fs (dataOp dir d).parent = false)
    (hw3 : strMem fs.failMkdir (dataOp dir d).parent = true)
    (hw4 : goDir (dataOp dir d).file = (dataOp dir d).parent) :
    (∃ e, writeDDL fs ddl dir = (fs, some e)) ∧
      ∃ e, writeData fs d dir = (fs, some e) :=
  ⟨runOp_mkdir_fail fs (ddlOp dir ddl) hd1 hd2 hd3 hd4,
    runOp_mkdir_fail fs (dataOp dir d) hw1 hw2 hw3 hw4⟩

/-- Witness for C4: on `fsMkFail` the creation of both `r/table` and
`r/static_data` fails, and both writers report an error. -/
theorem C4_mkdir_failure_surfaces_witness :
    (∃ e, writeDDL fsMkFail ⟨"table", "Users.sql", "CREATE"⟩ "r" = (fsMkFail, some e)) ∧
      ∃ e, writeData fsMkFail ⟨"Users", ["INSERT 1"]⟩ "r" = (fsMkFail, some e) :=
  C4_mkdir_failure_surfaces fsMkFail ⟨"table", "Users.sql", "CREATE"⟩ ⟨"Users", ["INSERT 1"]⟩ "r"
    (by decide) (by decide) (by decide) (by decide)
    (by decide) (by decide) (by decide) (by decide)

/-- C8 counterexample: the claim says static-data files are created
readable and writable ONLY by the owner.  The code creates them with mode
`0644`: the run below succeeds, the created file's mode is `0644`, and the
group/other bit block of `0644` is not zero, so the file is not
owner-only. -/
theorem C8_counterexample_perms :
    (writeData fsRoot ⟨"Users", ["INSERT 1", "INSERT 2"]⟩ "r").2 = none ∧
      permAt (writeData fsRoot ⟨"Users", ["INSERT 1", "INSERT 2"]⟩ "r").1
        "r/static_data/Users.sql" = some 0o644 ∧
      (0o644 : Nat) % 64 ≠ 0 := by
  refine ⟨by decide, by decide, by decide⟩

/-- C8 (amended): `writeData` writes to `root/static_data/<derived name>`
exactly the statements joined with single newlines, verbatim, overwriting
any existing file of that name and touching no other file; static-data
files are created with mode `0644` (owner read/write, group and others
read), schema files with mode `0664` (owner and group read/write, others
read, not executable), and created directories with mode `0700`
(owner-only). -/
theorem C8_write_artifacts (fs : GoFS) (d : StaticData) (ddl : SchemaDDL) (root : String) :
    (∀ fs', writeData fs d root = (fs', none) →
      fileAt fs' (dataOp root d).file = some (strJoin "\n" d.Statements) ∧
      (∀ q, (dataOp root d).file ≠ q → fileAt fs' q = fileAt fs q) ∧
      (fileAt fs (dataOp root d).file = none →
        permAt fs' (dataOp root d).file = some 0o644)) ∧
    (∀ fs', writeDDL fs ddl root = (fs', none) →
      fileAt fs (ddlOp root ddl).file = none →
      permAt fs' (ddlOp root ddl).file = some 0o664) ∧
    (∀ par, strMem fs.failStat par = false → statExists fs par = false →
      strMem fs.failMkdir par = false →
      dirPermAt (mkdirGo fs par).1 par = some 0o700) := by
  refine ⟨?_, ?_, ?_⟩
  · intro fs' h
    refine ⟨?_, ?_, ?_⟩
    · have := runOp_ok_fileAt fs (dataOp root d) fs' h (dataOp root d).file
      rw [if_pos rfl] at this
      exact this
    · intro q hq
      have := runOp_ok_fileAt fs (dataOp root d) fs' h q
      rw [if_neg hq] at this
      exact this
    · intro hnew
      exact runOp_ok_permAt_new fs (dataOp root d) fs' h hnew
  · intro fs' h hnew
    exact runOp_ok_permAt_new fs (ddlOp root ddl) fs' h hnew
  · intro par h1 h2 h3
    unfold mkdirGo
    simp [h1, h2, h3, dirPermAt, dirsLookup]

/-- Witness for the amended C8: a concrete static-data write produces the
newline-joined content, and a concrete directory creation uses mode 0700. -/
theorem C8_write_artifacts_witness :
    fileAt (writeData fsRoot ⟨"Users", ["INSERT 1", "INSERT 2"]⟩ "r").1
        "r/static_data/Users.sql" = some "INSERT 1\nINSERT 2" ∧
      dirPermAt (mkdirGo fsRoot "r/static_data").1 "r/static_data" = some 0o700 := by
  constructor
  · exact ((C8_write_artifacts fsRoot ⟨"Users", ["INSERT 1", "INSERT 2"]⟩
      ⟨"table", "Users.sql", "CREATE"⟩ "r").1
        (writeData fsRoot ⟨"Users", ["INSERT 1", "INSERT 2"]⟩ "r").1 (by decide)).1
  · exact (C8_write_artifacts fsRoot ⟨"Users", ["INSERT 1", "INSERT 2"]⟩
      ⟨"table", "Users.sql", "CREATE"⟩ "r").2.2 "r/static_data"
        (by decide) (by decide) (by decide)

/-- C9: in consolidated mode `load` touches only the single schema file
path: every other file keeps its content, no directory is created or
removed, and on success the schema blob returned by the provider is at the
schema file path verbatim (overwriting whatever was there). -/
theorem C9_consolidated_frame (conn : Except String Client) (fs : GoFS) (sfp : String) :
    (∀ q, sfp ≠ q → fileAt (load conn fs sfp).1 q = fileAt fs q) ∧
      (load conn fs sfp).1.dirs = fs.dirs ∧
      (∀ cl ddl, conn = Except.ok cl → cl.loadDDLres = Except.ok ddl →
        (load conn fs sfp).2 = none → fileAt (load conn fs sfp).1 sfp = some ddl) := by
  cases conn with
  | error e => exact ⟨fun q _ => rfl, rfl, fun cl ddl hc => by cases hc⟩
  | ok cl =>
    cases hd : cl.loadDDLres with
    | error e =>
      refine ⟨fun q _ => by simp [load, hd], by simp [load, hd], ?_⟩
      intro cl' ddl hc hd' hnone
      cases hc
      rw [hd] at hd'
      cases hd'
    | ok ddl =>
      cases hw : FS.writeFile fs sfp ddl 0o664 with
      | error e =>
        refine ⟨fun q _ => by simp [load, hd, hw], by simp [load, hd, hw], ?_⟩
        intro cl' ddl' hc hd' hnone
        simp [load, hd, hw] at hnone
      | ok fs1 =>
        refine ⟨?_, ?_, ?_⟩
        · intro q hq
          have h1 : (load (Except.ok cl) fs sfp).1 = fs1 := by simp [load, hd, hw]
          rw [h1]
          have := writeFile_ok_fileAt fs sfp ddl 0o664 fs1 hw q
          rw [if_neg hq] at this
          exact this
        · have h1 : (load (Except.ok cl) fs sfp).1 = fs1 := by simp [load, hd, hw]
          rw [h1]
          exact writeFile_ok_dirs fs sfp ddl 0o664 fs1 hw
        · intro cl' ddl' hc hd' hnone
          cases hc
          rw [hd] at hd'
          cases hd'
          have h1 : (load (Except.ok cl) fs sfp).1 = fs1 := by simp [load, hd, hw]
          rw [h1]
          have := writeFile_ok_fileAt fs sfp ddl 0o664 fs1 hw sfp
          rw [if_pos rfl] at this
          exact this

/-- Witness for C9: on `fsCons` the unrelated file keeps its content and
the old schema file is overwritten with the fetched blob. -/
theorem C9_consolidated_frame_witness :
    fileAt (load (Except.ok exClient) fsCons "r/schema.sql").1 "r/other.txt" = some "keep" ∧
      fileAt (load (Except.ok exClient) fsCons "r/schema.sql").1 "r/schema.sql"
        = some "CREATE TABLE Users (...)" := by
  constructor
  · rw [(C9_consolidated_frame (Except.ok exClient) fsCons "r/schema.sql").1
      "r/other.txt" (by decide)]
    rfl
  · exact (C9_consolidated_frame (Except.ok exClient) fsCons "r/schema.sql").2.2
      exClient "CREATE TABLE Users (...)" rfl rfl (by decide)

/-- From `notWrittenAt tr p` no write event of the trace targets `p`. -/
theorem notWrittenAt_spec (tr : List Event) (p q : String) (h : notWrittenAt tr p = true) :
    (Event.writeObj q ∈ tr → q ≠ p) ∧ (Event.writeStatic q ∈ tr → q ≠ p) := by
  unfold notWrittenAt at h
  rw [List.all_eq_true] at h
  constructor
  · intro hm
    have := h _ hm
    simpa using this
  · intro hm
    have := h _ hm
    simpa using this

/-- C5: running the discrete export twice in a row, against the same
provider results and with the run-resolved config the same both times (the
config files on disk are unchanged), leaves every file of the tree with the
same content after the second run as after the first: the directory trees
are byte-identical. -/
theorem C5_discrete_export_idempotent (conn : Except String Client) (ju : JsonU)
    (fs0 fs1 fs2 : GoFS) (dir sdt : String) (tr1 tr2 : List Event)
    (h1 : loadDiscrete conn ju fs0 dir sdt = (fs1, none, tr1))
    (h2 : loadDiscrete conn ju fs1 dir sdt = (fs2, none, tr2))
    (hc : ∃ c, Event.readConfig c ∈ tr1 ∧ Event.readConfig c ∈ tr2)
    (p : String) :
    fileAt fs2 p = fileAt fs1 p := by
  obtain ⟨cl, ddls, fsA, fsB, trA, cfg, datas, trB, hconn, hd, hcl, hA, hcfg, hsf, hB, htr⟩ :=
    loadDiscrete_ok_elim _ _ _ _ _ _ _ h1
  obtain ⟨cl', ddls', fsA', fsB', trA', cfg', datas', trB', hconn', hd', hcl', hA', hcfg',
    hsf', hB', htr'⟩ := loadDiscrete_ok_elim _ _ _ _ _ _ _ h2
  rw [hconn] at hconn'
  injection hconn' with hcleq
  subst hcleq
  rw [hd] at hd'
  injection hd' with hddls
  subst hddls
  obtain ⟨c, hm1, hm2⟩ := hc
  rw [htr] at hm1
  rw [htr'] at hm2
  have htagA := runOps_events_tag Event.writeObj (ddls.map (ddlOp dir)) fsA fsB none trA hA
  have htagB := runOps_events_tag Event.writeStatic (datas.map (dataOp dir)) fsB fs1 none trB hB
  have htagA' := runOps_events_tag Event.writeObj (ddls.map (ddlOp dir)) fsA' fsB' none trA' hA'
  have htagB' := runOps_events_tag Event.writeStatic (datas'.map (dataOp dir)) fsB' fs2 none
    trB' hB'
  have e1 : c = cfg := readConfig_unique trA trB cfg c htagA htagB hm1
  have e2 : c = cfg' := readConfig_unique trA' trB' cfg' c htagA' htagB' hm2
  have ecfg : cfg' = cfg := by rw [← e1, ← e2]
  subst ecfg
  rw [hsf] at hsf'
  injection hsf' with hdatas
  subst hdatas
  have k1 := runOps_ok_fileAt Event.writeStatic (datas.map (dataOp dir)) fsB fs1 trB hB p
  have k2 := runOps_ok_fileAt Event.writeObj (ddls.map (ddlOp dir)) fsA fsB trA hA p
  have k3 := clear_ok_fileAt fs0 dir fsA hcl p
  have k1' := runOps_ok_fileAt Event.writeStatic (datas.map (dataOp dir)) fsB' fs2 trB' hB' p
  have k2' := runOps_ok_fileAt Event.writeObj (ddls.map (ddlOp dir)) fsA' fsB' trA' hA' p
  have k3' := clear_ok_fileAt fs1 dir fsA' hcl' p
  rw [k1', k2', k3', k1, k2, k3]
  cases lastContent (datas.map (dataOp dir)) p <;>
    cases lastContent (ddls.map (ddlOp dir)) p <;>
      cases inRegion dir p <;> simp [oOr]

/-- Witness for C5: two consecutive successful runs on `exFS`; the file
written for the `Users` table has the same content after both. -/
theorem C5_discrete_export_idempotent_witness :
    fileAt exRun2.1 "r/table/Users.sql" = fileAt exRun1.1 "r/table/Users.sql" :=
  C5_discrete_export_idempotent (Except.ok exClient) exJu exFS exRun1.1 exRun2.1
    "r" "r/static_data_tables.txt" exRun1.2.2 exRun2.2.2 rfl rfl
    ⟨⟨[], []⟩, by decide, by decide⟩ "r/table/Users.sql"

/-- C6: after a successful discrete export, every path lying in the
`table`, `index` or `static_data` subtree that none of the run's write
events targeted holds no file — no stale artifact of a prior export
survives in those three categories. -/
theorem C6_no_stale_artifacts (conn : Except String Client) (ju : JsonU) (fs : GoFS)
    (dir sdt : String) (fs' : GoFS) (tr : List Event) (p : String)
    (h : loadDiscrete conn ju fs dir sdt = (fs', none, tr))
    (hreg : inRegion dir p = true)
    (hw : notWrittenAt tr p = true) :
    fileAt fs' p = none := by
  obtain ⟨cl, ddls, fsA, fsB, trA, cfg, datas, trB, hconn, hd, hcl, hA, hcfg, hsf, hB, htr⟩ :=
    loadDiscrete_ok_elim _ _ _ _ _ _ _ h
  have htrA := runOps_ok_trace Event.writeObj (ddls.map (ddlOp dir)) fsA fsB trA hA
  have htrB := runOps_ok_trace Event.writeStatic (datas.map (dataOp dir)) fsB fs' trB hB
  have hallA : ∀ o ∈ ddls.map (ddlOp dir), o.file ≠ p := by
    intro o ho
    have hmem : Event.writeObj o.file ∈ tr := by
      rw [htr, htrA]
      have : Event.writeObj o.file ∈ (ddls.map (ddlOp dir)).map (fun o => Event.writeObj o.file) :=
        List.mem_map_of_mem _ ho
      simp only [List.mem_cons, List.mem_append]
      exact Or.inr (Or.inr (Or.inl this))
    exact (notWrittenAt_spec tr p o.file hw).1 hmem
  have hallB : ∀ o ∈ datas.map (dataOp dir), o.file ≠ p := by
    intro o ho
    have hmem : Event.writeStatic o.file ∈ tr := by
      rw [htr, htrB]
      have : Event.writeStatic o.file ∈
          (datas.map (dataOp dir)).map (fun o => Event.writeStatic o.file) :=
        List.mem_map_of_mem _ ho
      simp only [List.mem_cons, List.mem_append]
      exact Or.inr (Or.inr (Or.inr (Or.inr (Or.inr this))))
    exact (notWrittenAt_spec tr p o.file hw).2 hmem
  have k1 := runOps_ok_fileAt Event.writeStatic (datas.map (dataOp dir)) fsB fs' trB hB p
  have k2 := runOps_ok_fileAt Event.writeObj (ddls.map (ddlOp dir)) fsA fsB trA hA p
  have k3 := clear_ok_fileAt fs dir fsA hcl p
  rw [k1, k2, k3, lastContent_eq_none _ _ hallA, lastContent_eq_none _ _ hallB, hreg]
  simp [oOr]

/-- Witness for C6: the stale `r/table/Old.sql` of `exFS` is gone after the
successful run `exRun1`. -/
theorem C6_no_stale_artifacts_witness :
    fileAt exRun1.1 "r/table/Old.sql" = none :=
  C6_no_stale_artifacts (Except.ok exClient) exJu exFS "r" "r/static_data_tables.txt"
    exRun1.1 exRun1.2.2 "r/table/Old.sql" rfl (by decide) (by decide)

/-- Events of a single stage are pairwise stage-sorted. -/
theorem pairwise_stage_const (l : List Event) (k : Nat) (h : ∀ e ∈ l, stage e = k) :
    List.Pairwise (fun a b => stage a ≤ stage b) l := by
  induction l with
  | nil => exact List.Pairwise.nil
  | cons e rest ih =>
    refine List.Pairwise.cons ?_ (ih (fun b hb => h b (List.mem_cons_of_mem e hb)))
    intro b hb
    rw [h e (List.mem_cons_self e rest), h b (List.mem_cons_of_mem e hb)]

/-- A predicate false on every tagged event counts zero on a tagged trace. -/
theorem countP_zero_of_tagged (tag : String → Event) (l : List Event)
    (hl : ∀ e ∈ l, ∃ p, e = tag p) (q : Event → Bool) (hq : ∀ s, q (tag s) = false) :
    l.countP q = 0 :=
  List.countP_eq_zero.mpr (fun e he => by
    obtain ⟨p, hp⟩ := hl e he
    subst hp
    simp [hq p])

/-- Stage-sortedness of the trace shape reached when the object-write loop
stops the run. -/
theorem pairwise_shape_ddl (trA : List Event) (hA : ∀ e ∈ trA, stage e = 2) :
    List.Pairwise (fun a b => stage a ≤ stage b)
      (Event.fetchDDLs :: Event.clearDir :: trA) := by
  refine List.Pairwise.cons ?_ (List.Pairwise.cons ?_ (pairwise_stage_const trA 2 hA))
  · intro b hb
    exact Nat.zero_le _
  · intro b hb
    rw [hA b hb]
    decide

/-- Stage-sortedness of the trace shape reached when config resolution
stops the run. -/
theorem pairwise_shape_cfg (trA : List Event) (cfg : staticDataConfig)
    (hA : ∀ e ∈ trA, stage e = 2) :
    List.Pairwise (fun a b => stage a ≤ stage b)
      (Event.fetchDDLs :: Event.clearDir :: (trA ++ [Event.readConfig cfg])) := by
  refine List.Pairwise.cons ?_ (List.Pairwise.cons ?_ ?_)
  · intro b hb
    exact Nat.zero_le _
  · intro b hb
    rcases List.mem_append.mp hb with h | h
    · rw [hA b h]; decide
    · simp at h; subst h; simp [stage]
  · rw [List.pairwise_append]
    refine ⟨pairwise_stage_const trA 2 hA, by simp, ?_⟩
    intro a ha b hb
    simp at hb
    subst hb
    rw [hA a ha]
    simp [stage]

/-- Stage-sortedness of the full trace shape (reached in the last three
outcomes of a run). -/
theorem pairwise_shape_full (trA trB : List Event) (cfg : staticDataConfig)
    (hA : ∀ e ∈ trA, stage e = 2) (hB : ∀ e ∈ trB, stage e = 5) :
    List.Pairwise (fun a b => stage a ≤ stage b)
      (Event.fetchDDLs :: Event.clearDir ::
        (trA ++ Event.readConfig cfg :: Event.fetchStatic :: trB)) := by
  refine List.Pairwise.cons ?_ (List.Pairwise.cons ?_ ?_)
  · intro b hb
    exact Nat.zero_le _
  · intro b hb
    rcases List.mem_append.mp hb with h | h
    · rw [hA b h]; decide
    · rcases List.mem_cons.mp h with h | h
      · subst h; simp [stage]
      · rcases List.mem_cons.mp h with h | h
        · subst h; decide
        · rw [hB b h]; decide
  · rw [List.pairwise_append]
    refine ⟨pairwise_stage_const trA 2 hA, ?_, ?_⟩
    · refine List.Pairwise.cons ?_ (List.Pairwise.cons ?_ (pairwise_stage_const trB 5 hB))
      · intro b hb
        rcases List.mem_cons.mp hb with h | h
        · subst h; simp [stage]
        · rw [hB b h]; simp [stage]
      · intro b hb
        rw [hB b hb]
        decide
    · intro a ha b hb
      rcases List.mem_cons.mp hb with h | h
      · subst h; rw [hA a ha]; simp [stage]
      · rcases List.mem_cons.mp h with h | h
        · subst h; rw [hA a ha]; decide
        · rw [hA a ha, hB b h]; decide

/-- C7: in every discrete-mode invocation the recorded actions occur in the
fixed linear pipeline order (fetch, clear, object writes, config resolution,
static fetch, static writes); the fetch, clear, config and static-fetch
steps each happen at most once; the directory clear happens only after the
schema fetch succeeded and before every artifact write; a failure tagged
with step `s` means no action of a later stage was attempted; and nothing
is written or removed when connecting or the schema fetch fails. -/
theorem C7_pipeline_order (conn : Except String Client) (ju : JsonU) (fs : GoFS)
    (dir sdt : String) (fs' : GoFS) (err : Option (Step × String)) (tr : List Event)
    (h : loadDiscrete conn ju fs dir sdt = (fs', err, tr)) :
    List.Pairwise (fun a b => stage a ≤ stage b) tr ∧
    tr.countP (fun e => decide (e = Event.fetchDDLs)) ≤ 1 ∧
    tr.countP (fun e => decide (e = Event.clearDir)) ≤ 1 ∧
    tr.countP isReadConfigEv ≤ 1 ∧
    tr.countP (fun e => decide (e = Event.fetchStatic)) ≤ 1 ∧
    (Event.clearDir ∈ tr → ∃ cl ddls, conn = Except.ok cl ∧ cl.loadDDLsRes = Except.ok ddls) ∧
    (∀ e ∈ tr, isArtifactWrite e = true → Event.clearDir ∈ tr) ∧
    (∀ s msg, err = some (s, msg) → ∀ e ∈ tr, stage e ≤ stepStage s) ∧
    (∀ msg, conn = Except.error msg → fs' = fs) ∧
    (∀ cl msg, conn = Except.ok cl → cl.loadDDLsRes = Except.error msg → fs' = fs) := by
  unfold loadDiscrete at h
  split at h
  · rename_i e
    simp only [Prod.mk.injEq] at h
    obtain ⟨hfs, herr, htr⟩ := h
    subst hfs; subst herr; subst htr
    refine ⟨List.Pairwise.nil, by simp, by simp, by simp, by simp, ?_, ?_, ?_, ?_, ?_⟩
    · intro hmem; simp at hmem
    · intro ev he; simp at he
    · intro s msg heq ev he; simp at he
    · intro msg hcn; rfl
    · intro cl msg hcn; simp at hcn
  · rename_i cl
    split at h
    · rename_i e hd
      simp only [Prod.mk.injEq] at h
      obtain ⟨hfs, herr, htr⟩ := h
      subst hfs; subst herr; subst htr
      refine ⟨?_, by simp, by simp, by simp [isReadConfigEv], by simp, ?_, ?_, ?_, ?_, ?_⟩
      · exact List.Pairwise.cons (fun b hb => by simp at hb) List.Pairwise.nil
      · intro hmem; simp at hmem
      · intro ev he hw
        simp at he
        subst he
        simp [isArtifactWrite] at hw
      · intro s msg heq ev he
        simp at he
        subst he
        simp only [Option.some.injEq, Prod.mk.injEq] at heq
        obtain ⟨hs, _⟩ := heq
        subst hs
        decide
      · intro msg hcn; simp at hcn
      · intro cl' msg hcn hd'; rfl
    · rename_i ddls hd
      split at h
      · rename_i fs1 e hc
        simp only [Prod.mk.injEq] at h
        obtain ⟨hfs, herr, htr⟩ := h
        subst hfs; subst herr; subst htr
        refine ⟨?_, by simp, by simp, by simp [isReadConfigEv], by simp, ?_, ?_, ?_, ?_, ?_⟩
        · exact List.Pairwise.cons (fun b hb => Nat.zero_le _)
            (List.Pairwise.cons (fun b hb => by simp at hb) List.Pairwise.nil)
        · intro hmem; exact ⟨cl, ddls, rfl, hd⟩
        · intro ev he hw; simp
        · intro s msg heq ev he
          simp only [Option.some.injEq, Prod.mk.injEq] at heq
          obtain ⟨hs, _⟩ := heq
          subst hs
          rcases List.mem_cons.mp he with h1 | h1
          · subst h1; decide
          · simp at h1; subst h1; decide
        · intro msg hcn; simp at hcn
        · intro cl' msg hcn hd'
          injection hcn with hcl
          subst hcl
          rw [hd] at hd'
          simp at hd'
      · rename_i fs1 hc
        split at h
        · rename_i fs2 e trA hA2
          simp only [Prod.mk.injEq] at h
          obtain ⟨hfs, herr, htr⟩ := h
          subst hfs; subst herr; subst htr
          have htagA := runOps_events_tag Event.writeObj (ddls.map (ddlOp dir)) fs1 fs2
            (some e) trA hA2
          have hstA : ∀ ev ∈ trA, stage ev = 2 := fun ev he => by
            obtain ⟨p, hp⟩ := htagA ev he; subst hp; rfl
          have z1 := countP_zero_of_tagged Event.writeObj trA htagA
            (fun ev => decide (ev = Event.fetchDDLs)) (fun s => by simp)
          have z2 := countP_zero_of_tagged Event.writeObj trA htagA
            (fun ev => decide (ev = Event.clearDir)) (fun s => by simp)
          have z3 := countP_zero_of_tagged Event.writeObj trA htagA isReadConfigEv
            (fun s => rfl)
          have z4 := countP_zero_of_tagged Event.writeObj trA htagA
            (fun ev => decide (ev = Event.fetchStatic)) (fun s => by simp)
          refine ⟨pairwise_shape_ddl trA hstA, ?_, ?_, ?_, ?_, ?_, ?_, ?_, ?_, ?_⟩
          · simp [List.countP_cons, z1]
          · simp [List.countP_cons, z2]
          · simp [List.countP_cons, z3, isReadConfigEv]
          · simp [List.countP_cons, z4]
          · intro hmem; exact ⟨cl, ddls, rfl, hd⟩
          · intro ev he hw; simp
          · intro s msg heq ev he
            simp only [Option.some.injEq, Prod.mk.injEq] at heq
            obtain ⟨hs, _⟩ := heq
            subst hs
            rcases List.mem_cons.mp he with h1 | h1
            · subst h1; decide
            rcases List.mem_cons.mp h1 with h2 | h2
            · subst h2; decide
            · rw [hstA ev h2]; decide
          · intro msg hcn; simp at hcn
          · intro cl' msg hcn hd'
            injection hcn with hcl
            subst hcl
            rw [hd] at hd'
            simp at hd'
        · rename_i fs2 trA hA2
          have htagA := runOps_events_tag Event.writeObj (ddls.map (ddlOp dir)) fs1 fs2
            none trA hA2
          have hstA : ∀ ev ∈ trA, stage ev = 2 := fun ev he => by
            obtain ⟨p, hp⟩ := htagA ev he; subst hp; rfl
          have z1 := countP_zero_of_tagged Event.writeObj trA htagA
            (fun ev => decide (ev = Event.fetchDDLs)) (fun s => by simp)
          have z2 := countP_zero_of_tagged Event.writeObj trA htagA
            (fun ev => decide (ev = Event.clearDir)) (fun s => by simp)
          have z3 := countP_zero_of_tagged Event.writeObj trA htagA isReadConfigEv
            (fun s => rfl)
          have z4 := countP_zero_of_tagged Event.writeObj trA htagA
            (fun ev => decide (ev = Event.fetchStatic)) (fun s => by simp)
          split at h
          · rename_i cfg e hcfg
            simp only [Prod.mk.injEq] at h
            obtain ⟨hfs, herr, htr⟩ := h
            subst hfs; subst herr; subst htr
            refine ⟨pairwise_shape_cfg trA cfg hstA, ?_, ?_, ?_, ?_, ?_, ?_, ?_, ?_, ?_⟩
            · simp [List.countP_cons, List.countP_append, z1]
            · simp [List.countP_cons, List.countP_append, z2]
            · simp [List.countP_cons, List.countP_append, z3, isReadConfigEv]
            · simp [List.countP_cons, List.countP_append, z4]
            · intro hmem; exact ⟨cl, ddls, rfl, hd⟩
            · intro ev he hw; simp
            · intro s msg heq ev he
              simp only [Option.some.injEq, Prod.mk.injEq] at heq
              obtain ⟨hs, _⟩ := heq
              subst hs
              rcases List.mem_cons.mp he with h1 | h1
              · subst h1; decide
              rcases List.mem_cons.mp h1 with h2 | h2
              · subst h2; decide
              rcases List.mem_append.mp h2 with h3 | h3
              · rw [hstA ev h3]; decide
              · simp at h3; subst h3; simp [stage, stepStage]
            · intro msg hcn; simp at hcn
            · intro cl' msg hcn hd'
              injection hcn with hcl
              subst hcl
              rw [hd] at hd'
              simp at hd'
          · rename_i cfg hcfg
            split at h
            · rename_i e hsf
              simp only [Prod.mk.injEq] at h
              obtain ⟨hfs, herr, htr⟩ := h
              subst hfs; subst herr; subst htr
              refine ⟨?_, ?_, ?_, ?_, ?_, ?_, ?_, ?_, ?_, ?_⟩
              · exact pairwise_shape_full trA [] cfg hstA (fun ev he => by simp at he)
              · simp [List.countP_cons, List.countP_append, z1]
              · simp [List.countP_cons, List.countP_append, z2]
              · simp [List.countP_cons, List.countP_append, z3, isReadConfigEv]
              · simp [List.countP_cons, List.countP_append, z4]
              · intro hmem; exact ⟨cl, ddls, rfl, hd⟩
              · intro ev he hw; simp
              · intro s msg heq ev he
                simp only [Option.some.injEq, Prod.mk.injEq] at heq
                obtain ⟨hs, _⟩ := heq
                subst hs
                rcases List.mem_cons.mp he with h1 | h1
                · subst h1; decide
                rcases List.mem_cons.mp h1 with h2 | h2
                · subst h2; decide
                rcases List.mem_append.mp h2 with h3 | h3
                · rw [hstA ev h3]; decide
                · rcases List.mem_cons.mp h3 with h4 | h4
                  · subst h4; simp [stage, stepStage]
                  · simp at h4; subst h4; decide
              · intro msg hcn; simp at hcn
              · intro cl' msg hcn hd'
                injection hcn with hcl
                subst hcl
                rw [hd] at hd'
                simp at hd'
            · rename_i datas hsf
              split at h
              rename_i fs3 errB trB hB2
              have htagB := runOps_events_tag Event.writeStatic (datas.map (dataOp dir))
                fs2 fs3 errB trB hB2
              have hstB : ∀ ev ∈ trB, stage ev = 5 := fun ev he => by
                obtain ⟨p, hp⟩ := htagB ev he; subst hp; rfl
              have w1 := countP_zero_of_tagged Event.writeStatic trB htagB
                (fun ev => decide (ev = Event.fetchDDLs)) (fun s => by simp)
              have w2 := countP_zero_of_tagged Event.writeStatic trB htagB
                (fun ev => decide (ev = Event.clearDir)) (fun s => by simp)
              have w3 := countP_zero_of_tagged Event.writeStatic trB htagB isReadConfigEv
                (fun s => rfl)
              have w4 := countP_zero_of_tagged Event.writeStatic trB htagB
                (fun ev => decide (ev = Event.fetchStatic)) (fun s => by simp)
              cases errB with
              | none =>
                simp only [Option.map_none', Prod.mk.injEq] at h
                obtain ⟨hfs, herr, htr⟩ := h
                subst hfs; subst herr; subst htr
                refine ⟨pairwise_shape_full trA trB cfg hstA hstB, ?_, ?_, ?_, ?_, ?_, ?_, ?_,
                  ?_, ?_⟩
                · simp [List.countP_cons, List.countP_append, z1, w1]
                · simp [List.countP_cons, List.countP_append, z2, w2]
                · simp [List.countP_cons, List.countP_append, z3, w3, isReadConfigEv]
                · simp [List.countP_cons, List.countP_append, z4, w4]
                · intro hmem; exact ⟨cl, ddls, rfl, hd⟩
                · intro ev he hw; simp
                · intro s msg heq ev he; simp at heq
                · intro msg hcn; simp at hcn
                · intro cl' msg hcn hd'
                  injection hcn with hcl
                  subst hcl
                  rw [hd] at hd'
                  simp at hd'
              | some e =>
                simp only [Option.map_some', Prod.mk.injEq] at h
                obtain ⟨hfs, herr, htr⟩ := h
                subst hfs; subst herr; subst htr
                refine ⟨pairwise_shape_full trA trB cfg hstA hstB, ?_, ?_, ?_, ?_, ?_, ?_, ?_,
                  ?_, ?_⟩
                · simp [List.countP_cons, List.countP_append, z1, w1]
                · simp [List.countP_cons, List.countP_append, z2, w2]
                · simp [List.countP_cons, List.countP_append, z3, w3, isReadConfigEv]
                · simp [List.countP_cons, List.countP_append, z4, w4]
                · intro hmem; exact ⟨cl, ddls, rfl, hd⟩
                · intro ev he hw; simp
                · intro s msg heq ev he
                  simp only [Option.some.injEq, Prod.mk.injEq] at heq
                  obtain ⟨hs, _⟩ := heq
                  subst hs
                  rcases List.mem_cons.mp he with h1 | h1
                  · subst h1; decide
                  rcases List.mem_cons.mp h1 with h2 | h2
                  · subst h2; decide
                  rcases List.mem_append.mp h2 with h3 | h3
                  · rw [hstA ev h3]; decide
                  rcases List.mem_cons.mp h3 with h4 | h4
                  · subst h4; simp [stage, stepStage]
                  rcases List.mem_cons.mp h4 with h5 | h5
                  · subst h5; decide
                  · rw [hstB ev h5]; decide
                · intro msg hcn; simp at hcn
                · intro cl' msg hcn hd'
                  injection hcn with hcl
                  subst hcl
                  rw [hd] at hd'
                  simp at hd'

/-- Witness for C7: the successful concrete run `exRun1` has a stage-sorted
trace, and its clear step is preceded by a successful fetch. -/
theorem C7_pipeline_order_witness :
    List.Pairwise (fun a b => stage a ≤ stage b) exRun1.2.2 ∧
      (Event.clearDir ∈ exRun1.2.2 →
        ∃ cl ddls, (Except.ok exClient : Except String Client) = Except.ok cl ∧
          cl.loadDDLsRes = Except.ok ddls) := by
  have h := C7_pipeline_order (Except.ok exClient) exJu exFS "r" "r/static_data_tables.txt"
    exRun1.1 exRun1.2.1 exRun1.2.2 rfl
  exact ⟨h.1, h.2.2.2.2.2.1⟩

end Wrench
